import Mathlib

/-!
Shallow embedding of the file-organizer program (`src/organizer.py` and
`src/config.py`) together with proofs about the claims of its design
specification.  Filenames and paths are modelled as `String`s, the contents
of the category subfolders created inside the source directory as
association lists from names to content tokens, and log output as a list of
levelled records.  Exceptions raised by the runtime environment (the move
primitive, `entry.is_file()`, `os.scandir`) are modelled as `Option String`
oracles carried by the corresponding inputs, since whether a given
filesystem call raises is an input of the program, not something it
computes.
-/

namespace FileOrganizer

/-! ### Decimal rendering of the probe counter

`make_safe_target` renders its counter with the f-string
`f"{name} ({counter}){suffix}"`; the counter is rendered in decimal.
`toDigitsAux fuel n` computes the decimal digits of `n` (most significant
first) and equals the full digit string whenever `n ≤ fuel`. -/

/-- Decimal digit list of `n`, most significant digit first, with explicit
fuel making the division recursion structural. -/
def toDigitsAux : Nat → Nat → List Char
  | _, 0 => []
  | 0, _ + 1 => []
  | fuel + 1, n + 1 =>
      toDigitsAux fuel ((n + 1) / 10) ++ [Nat.digitChar ((n + 1) % 10)]

/-- Decimal rendering of a natural number, as Python renders an `int` in an
f-string. -/
def natRepr (n : Nat) : String :=
  if n = 0 then "0" else ⟨toDigitsAux n n⟩

/-- Parse a digit list back into a number; a left inverse of the renderer,
used to prove that rendering is injective. -/
def digitsToNat (l : List Char) : Nat :=
  l.foldl (fun acc c => acc * 10 + (c.toNat - 48)) 0

theorem digitsToNat_append (l : List Char) (c : Char) :
    digitsToNat (l ++ [c]) = digitsToNat l * 10 + (c.toNat - 48) := by
  simp [digitsToNat, List.foldl_append]

theorem digitChar_val : ∀ d : Nat, d < 10 → (Nat.digitChar d).toNat - 48 = d := by
  decide

theorem digitsToNat_toDigitsAux :
    ∀ fuel n, n ≤ fuel → digitsToNat (toDigitsAux fuel n) = n := by
  intro fuel
  induction fuel with
  | zero =>
      intro n hn
      interval_cases n
      rfl
  | succ fuel ih =>
      intro n hn
      match n with
      | 0 => rfl
      | m + 1 =>
          have hdiv : (m + 1) / 10 ≤ fuel := by
            have h1 : (m + 1) / 10 < m + 1 := Nat.div_lt_self (Nat.succ_pos m) (by omega)
            omega
          rw [toDigitsAux, digitsToNat_append, ih _ hdiv,
            digitChar_val _ (Nat.mod_lt _ (by omega))]
          rw [Nat.mul_comm]
          exact Nat.div_add_mod (m + 1) 10

theorem digitsToNat_natRepr (n : Nat) : digitsToNat (natRepr n).data = n := by
  by_cases h : n = 0
  · subst h; rfl
  · have : natRepr n = ⟨toDigitsAux n n⟩ := by simp [natRepr, h]
    rw [this]
    exact digitsToNat_toDigitsAux n n (Nat.le_refl n)

theorem natRepr_injective {m n : Nat} (h : natRepr m = natRepr n) : m = n := by
  have := congrArg (fun s => digitsToNat (String.data s)) h
  simpa [digitsToNat_natRepr] using this

/-! ### Python `Path.suffix`, `Path.stem` and `normalize_extension`

Python computes `Path(name).suffix` by locating the last `'.'` of the final
path component at an index `i` with `0 < i < len(name) - 1`; when such an
index exists the suffix is `name[i:]` (dot included) and the stem is
`name[:i]`, otherwise the suffix is empty and the stem is the whole name.
The program only ever applies these to plain directory-entry names, which
contain no path separator, so the final component is the name itself. -/

/-- Index of the last '.' in a character list, if any. -/
def rfindDot : List Char → Option Nat
  | [] => none
  | c :: cs =>
    match rfindDot cs with
    | some i => some (i + 1)
    | none => if c = '.' then some 0 else none

/-- Index at which the Python suffix starts: the last dot position `i`
provided `0 < i < length - 1` (equivalently `i + 1 < length`). -/
def suffixIdx (l : List Char) : Option Nat :=
  match rfindDot l with
  | some i => if 0 < i ∧ i + 1 < l.length then some i else none
  | none => none

/-- Embedding of `Path(name).suffix` for a separator-free name: the final
extension including its dot, or the empty string. -/
def pySuffix (name : String) : String :=
  match suffixIdx name.data with
  | some i => ⟨name.data.drop i⟩
  | none => ""

/-- Embedding of `Path(name).stem` for a separator-free name: the name with
`pySuffix` removed. -/
def pyStem (name : String) : String :=
  match suffixIdx name.data with
  | some i => ⟨name.data.take i⟩
  | none => name

/-- Embedding of `normalize_extension` from `src/organizer.py`:
`Path(name).suffix.lower().lstrip(".")`. -/
def normalize_extension (name : String) : String :=
  ⟨((pySuffix name).data.map Char.toLower).dropWhile (fun c => c == '.')⟩

/-! ### Configuration (`src/config.py`) and `get_category` -/

/-- Embedding of `CATEGORY_MAP` from `src/config.py`: an ordered mapping
from category name to its extension list (Python dicts iterate in insertion
order). -/
def CATEGORY_MAP : List (String × List String) :=
  [("Images", ["jpg", "jpeg", "png", "gif", "bmp", "tiff", "webp", "svg"]),
   ("Documents", ["pdf", "doc", "docx", "txt", "rtf", "odt", "xls", "xlsx",
                  "ppt", "pptx", "md", "csv"]),
   ("Videos", ["mp4", "mkv", "mov", "avi", "wmv", "flv", "webm"]),
   ("Audio", ["mp3", "wav", "aac", "flac", "ogg", "m4a"]),
   ("Archives", ["zip", "rar", "7z", "tar", "gz", "bz2", "xz"])]

/-- Embedding of `get_category` from `src/organizer.py`: the first category
whose extension list contains `ext`; empty or unknown extensions resolve to
"Others". -/
def get_category (ext : String) (mapping : List (String × List String)) : String :=
  if ext = "" then "Others"
  else
    match mapping.find? (fun p => p.2.contains ext) with
    | some p => p.1
    | none => "Others"

/-! ### `make_safe_target`

The destination directory is represented by the list `fs` of names that
exist inside it.  The source's `while True` probe loop is rendered as the
fuel-indexed `probe`; the theorem `probe_ne_none` below proves that fuel
`fs.length + 1` always suffices, so `make_safe_target` computes exactly the
value the unbounded loop returns. -/

/-- Candidate name probed by the collision loop:
`f"{name} ({counter}){suffix}"`. -/
def candidate (stem suffix : String) (n : Nat) : String :=
  stem ++ " (" ++ natRepr n ++ ")" ++ suffix

/-- Fuel-indexed unfolding of the probe loop of `make_safe_target`:
starting at `counter`, return the first candidate that does not exist in
the destination directory. -/
def probe (fs : List String) (stem suffix : String) : Nat → Nat → Option String
  | counter, fuel + 1 =>
      if candidate stem suffix counter ∈ fs then
        probe fs stem suffix (counter + 1) fuel
      else
        some (candidate stem suffix counter)
  | _, 0 => none

/-- Embedding of `make_safe_target` from `src/organizer.py`: the desired
name itself when it does not exist, otherwise the first free
`"{stem} ({n}){suffix}"` candidate. -/
def make_safe_target (fs : List String) (filename : String) : String :=
  if filename ∈ fs then
    (probe fs (pyStem filename) (pySuffix filename) 1 (fs.length + 1)).getD filename
  else
    filename

/-! ### Logging (`setup_logger` and Python's `logging`)

`setup_logger` installs a `FileHandler` on a logger and calls
`logger.setLevel(logging.INFO)`; a record is written to `log.txt` exactly
when its numeric level is at least the logger's level (DEBUG = 10,
INFO = 20, ERROR = 40), so DEBUG records are filtered out.
`logger.exception` emits at ERROR level. -/

/-- Severity levels the program uses. -/
inductive Level
  | debug
  | info
  | error
deriving DecidableEq

/-- Numeric value of a level in Python's `logging` module. -/
def Level.toNat : Level → Nat
  | .debug => 10
  | .info => 20
  | .error => 40

/-- One log record: severity and message. -/
structure LogRecord where
  level : Level
  msg : String
deriving DecidableEq

/-- Threshold installed by `setup_logger` via `logger.setLevel(logging.INFO)`. -/
def loggerThreshold : Nat := 20

/-- Records that actually reach the `log.txt` file: those whose level
passes the logger's threshold. -/
def writtenRecords (logs : List LogRecord) : List LogRecord :=
  logs.filter (fun r => decide (loggerThreshold ≤ r.level.toNat))

/-! ### Filesystem state and the mover/scanner pipeline

The state records, for each category subfolder that exists under the
source directory, the files it contains (name and content token).  One
directory entry of the source carries its name, whether it is a regular
file, its content, and two exception oracles: `procError` models
`entry.is_file()` raising (caught by the per-entry guard in
`organize_folder`), `moveError` models the move primitive raising inside
`safe_move`'s `try` block. -/

/-- Category subfolders of the source directory and their contents. -/
structure State where
  subdirs : List (String × List (String × Nat))
deriving DecidableEq

/-- Path join, `Path.__truediv__`. -/
def joinPath (a b : String) : String := a ++ "/" ++ b

/-- Embedding of `ensure_dir`: `path.mkdir(parents=True, exist_ok=True)` —
create the category directory if missing, do nothing otherwise. -/
def ensureDir (st : State) (category : String) : State :=
  if st.subdirs.any (fun p => p.1 == category) then st
  else ⟨st.subdirs ++ [(category, [])]⟩

/-- Files of one category subfolder (empty when the folder is absent). -/
def dirFiles (st : State) (category : String) : List (String × Nat) :=
  ((st.subdirs.find? (fun p => p.1 == category)).map Prod.snd).getD []

/-- Names existing inside one category subfolder: the set consulted by
`make_safe_target`'s `exists()` checks. -/
def namesIn (st : State) (category : String) : List String :=
  (dirFiles st category).map Prod.fst

/-- Record that a file was placed inside a category subfolder. -/
def addFile (st : State) (category name : String) (content : Nat) : State :=
  ⟨st.subdirs.map (fun p =>
    if p.1 == category then (p.1, p.2 ++ [(name, content)]) else p)⟩

/-- Content of the file called `name` inside the `category` subfolder. -/
def findFile (st : State) (category name : String) : Option Nat :=
  ((dirFiles st category).find? (fun f => f.1 == name)).map Prod.snd

/-- One directory entry of the source, with its exception oracles. -/
structure Entry where
  name : String
  isFile : Bool
  content : Nat
  procError : Option String
  moveError : Option String
deriving DecidableEq

/-- Embedding of `safe_move` from `src/organizer.py`: ensure the
destination directory, compute a safe target, move, and log.  The broad
`except Exception` of the source catches any failure of the move
primitive — modelled by `e.moveError` — logs it and yields `none`.
Returns (new state, returned optional path, log records emitted). -/
def safe_move (sourceDir : String) (st : State) (e : Entry) (category : String) :
    State × Option String × List LogRecord :=
  let srcPath := joinPath sourceDir e.name
  let destDir := joinPath sourceDir category
  let st1 := ensureDir st category
  let target := make_safe_target (namesIn st1 category) e.name
  match e.moveError with
  | some exc =>
      (st1, none,
        [⟨Level.error, "Failed to move " ++ srcPath ++ " -> " ++ destDir ++ ": " ++ exc⟩])
  | none =>
      let targetPath := joinPath destDir target
      (addFile st1 category target e.content, some targetPath,
        [⟨Level.info, "Moved: " ++ srcPath ++ " -> " ++ targetPath⟩])

/-- Body of the per-entry loop of `organize_folder`, including its
per-entry `try`/`except` guard: a raising entry is logged and skipped, a
regular file goes through the classification/move pipeline, a directory is
skipped with a DEBUG record. -/
def processEntry (sourceDir : String) (mapping : List (String × List String))
    (st : State) (e : Entry) : State × List LogRecord :=
  match e.procError with
  | some exc =>
      (st, [⟨Level.error,
        "Error processing " ++ joinPath sourceDir e.name ++ ": " ++ exc⟩])
  | none =>
      if e.isFile then
        let ext := normalize_extension e.name
        let category := get_category ext mapping
        let r := safe_move sourceDir st e category
        (r.1, r.2.2)
      else
        (st, [⟨Level.debug, "Skipped directory: " ++ joinPath sourceDir e.name⟩])

/-- The scan loop of `organize_folder` over the listed entries. -/
def runEntries (sourceDir : String) (mapping : List (String × List String))
    (st : State) : List Entry → State × List LogRecord
  | [] => (st, [])
  | e :: es =>
      let r1 := processEntry sourceDir mapping st e
      let r2 := runEntries sourceDir mapping r1.1 es
      (r2.1, r1.2 ++ r2.2)

/-- Exceptions that can escape `organize_folder`: the `FileNotFoundError`
it raises itself on an invalid source, or an error raised by `os.scandir`
outside the per-entry guard. -/
inductive OrgError
  | fileNotFound (msg : String)
  | scanFault (msg : String)
deriving DecidableEq

/-- Message text of an escaped exception, as `str(exc)` in Python. -/
def OrgError.msg : OrgError → String
  | .fileNotFound m => m
  | .scanFault m => m

/-- The source directory as handed to `organize_folder`: its path, the
results of `source.exists()` and `source.is_dir()`, its top-level entries,
and an oracle for `os.scandir` raising outside the per-entry guard. -/
structure Source where
  path : String
  pathExists : Bool
  isDir : Bool
  entries : List Entry
  scanError : Option String
deriving DecidableEq

/-- Embedding of `organize_folder` from `src/organizer.py`.  Returns the
log records emitted, the final filesystem state, and the exception escaping
the call, if any. -/
def organize_folder (src : Source) (mapping : List (String × List String))
    (st : State) : List LogRecord × State × Option OrgError :=
  if src.pathExists && src.isDir then
    match src.scanError with
    | some exc => ([], st, some (OrgError.scanFault exc))
    | none =>
        let r := runEntries src.path mapping st src.entries
        (r.2, r.1, none)
  else
    ([⟨Level.error,
        "Source folder does not exist or is not a directory: " ++ src.path⟩],
     st, some (OrgError.fileNotFound ("Source folder not found: " ++ src.path)))

/-- Embedding of `main` from `src/organizer.py`: log the start record, run
`organize_folder` under a `try` that catches any exception, log completion
or the caught exception (`logger.exception` logs at ERROR level), and
return the exit code — 0 on a completed run, 2 when an exception was
caught. -/
def main (src : Source) (st : State) : Nat × List LogRecord :=
  let startRec : LogRecord := ⟨Level.info, "Starting organization for: " ++ src.path⟩
  let r := organize_folder src CATEGORY_MAP st
  match r.2.2 with
  | none => (0, startRec :: r.1 ++ [⟨Level.info, "Organization complete"⟩])
  | some err => (2, startRec :: r.1 ++ [⟨Level.error, "Unhandled error: " ++ err.msg⟩])

/-! ### Properties of the probe loop -/

theorem candidate_inj (stem suffix : String) {m n : Nat}
    (h : candidate stem suffix m = candidate stem suffix n) : m = n := by
  have hd := congrArg String.data h
  simp only [candidate, String.data_append, List.append_assoc] at hd
  have h1 := List.append_cancel_left hd
  have h2 := List.append_cancel_left h1
  have h3 := List.append_cancel_right h2
  have h4 := congrArg digitsToNat h3
  simpa [digitsToNat_natRepr] using h4

theorem probe_none_mem (fs : List String) (stem suffix : String) :
    ∀ fuel counter, probe fs stem suffix counter fuel = none →
      ∀ i < fuel, candidate stem suffix (counter + i) ∈ fs := by
  intro fuel
  induction fuel with
  | zero => intro counter _ i hi; omega
  | succ fuel ih =>
      intro counter h i hi
      simp only [probe] at h
      by_cases hc : candidate stem suffix counter ∈ fs
      · rw [if_pos hc] at h
        match i with
        | 0 => simpa using hc
        | j + 1 =>
            have hj := ih (counter + 1) h j (by omega)
            have harr : counter + 1 + j = counter + (j + 1) := by omega
            rwa [harr] at hj
      · rw [if_neg hc] at h
        exact absurd h (by simp)

theorem probe_ne_none (fs : List String) (stem suffix : String) (counter : Nat) :
    probe fs stem suffix counter (fs.length + 1) ≠ none := by
  intro h
  have hmem := probe_none_mem fs stem suffix (fs.length + 1) counter h
  have hsub : (List.range (fs.length + 1)).map
      (fun i => candidate stem suffix (counter + i)) ⊆ fs := by
    intro x hx
    simp only [List.mem_map, List.mem_range] at hx
    obtain ⟨i, hi, rfl⟩ := hx
    exact hmem i hi
  have hinj : Function.Injective (fun i => candidate stem suffix (counter + i)) := by
    intro a b hab
    have := candidate_inj stem suffix hab
    omega
  have hnodup := (List.nodup_range (fs.length + 1)).map hinj
  have hlen := (hnodup.subperm hsub).length_le
  simp only [List.length_map, List.length_range] at hlen
  omega

theorem probe_eq_some (fs : List String) (stem suffix : String) :
    ∀ fuel counter s, probe fs stem suffix counter fuel = some s →
      ∃ n, counter ≤ n ∧ s = candidate stem suffix n ∧ s ∉ fs ∧
        ∀ m, counter ≤ m → m < n → candidate stem suffix m ∈ fs := by
  intro fuel
  induction fuel with
  | zero => intro counter s h; simp [probe] at h
  | succ fuel ih =>
      intro counter s h
      simp only [probe] at h
      by_cases hc : candidate stem suffix counter ∈ fs
      · rw [if_pos hc] at h
        obtain ⟨n, hn1, hn2, hn3, hn4⟩ := ih (counter + 1) s h
        refine ⟨n, by omega, hn2, hn3, ?_⟩
        intro m hm1 hm2
        by_cases hm : m = counter
        · subst hm; exact hc
        · exact hn4 m (by omega) hm2
      · rw [if_neg hc] at h
        obtain rfl : candidate stem suffix counter = s := Option.some.inj h
        exact ⟨counter, Nat.le_refl _, rfl, hc,
          fun m hm1 hm2 => absurd hm1 (by omega)⟩

theorem make_safe_target_of_not_mem (fs : List String) (filename : String)
    (h : filename ∉ fs) : make_safe_target fs filename = filename := by
  simp [make_safe_target, h]

theorem make_safe_target_of_mem (fs : List String) (filename : String)
    (h : filename ∈ fs) :
    ∃ n, 1 ≤ n ∧
      make_safe_target fs filename = candidate (pyStem filename) (pySuffix filename) n ∧
      candidate (pyStem filename) (pySuffix filename) n ∉ fs ∧
      ∀ m, 1 ≤ m → m < n →
        candidate (pyStem filename) (pySuffix filename) m ∈ fs := by
  have hne := probe_ne_none fs (pyStem filename) (pySuffix filename) 1
  cases hp : probe fs (pyStem filename) (pySuffix filename) 1 (fs.length + 1) with
  | none => exact absurd hp hne
  | some s =>
      obtain ⟨n, hn1, hs, hn3, hn4⟩ := probe_eq_some fs _ _ _ _ _ hp
      subst hs
      refine ⟨n, hn1, ?_, hn3, hn4⟩
      simp [make_safe_target, h, hp]

theorem make_safe_target_not_mem (fs : List String) (filename : String) :
    make_safe_target fs filename ∉ fs := by
  by_cases h : filename ∈ fs
  · obtain ⟨n, _, heq, hn3, _⟩ := make_safe_target_of_mem fs filename h
    rw [heq]
    exact hn3
  · rw [make_safe_target_of_not_mem fs filename h]
    exact h

/-! ### Preservation of destination files -/

theorem findFile_ensureDir (st : State) (cat c name : String) :
    findFile (ensureDir st cat) c name = findFile st c name := by
  unfold ensureDir
  split
  · rfl
  · unfold findFile dirFiles
    rw [List.find?_append]
    cases hf : st.subdirs.find? (fun p => p.1 == c) with
    | some p => simp
    | none =>
        simp only [Option.none_or]
        by_cases hc : cat = c
        · subst hc
          simp [List.find?_cons]
        · simp [List.find?_cons, hc]

theorem findFile_addFile (st : State) (cat x : String) (w : Nat) (c name : String)
    (v : Nat) (h : findFile st c name = some v) :
    findFile (addFile st cat x w) c name = some v := by
  unfold findFile dirFiles addFile at *
  rw [List.find?_map]
  have hpred : ((fun p : String × List (String × Nat) => p.1 == c) ∘
      (fun p : String × List (String × Nat) =>
        if p.1 == cat then (p.1, p.2 ++ [(x, w)]) else p)) =
      (fun p : String × List (String × Nat) => p.1 == c) := by
    funext p
    simp only [Function.comp_apply]
    by_cases hp : p.1 == cat
    · rw [if_pos hp]
    · rw [if_neg hp]
  rw [hpred]
  revert h
  cases hf : st.subdirs.find? (fun p => p.1 == c) with
  | none => intro h; simp at h
  | some p =>
      intro h
      simp only [Option.map_some', Option.getD_some] at h ⊢
      by_cases hp : p.1 == cat
      · rw [if_pos hp]
        show Option.map Prod.snd
          ((p.2 ++ [(x, w)]).find? (fun f => f.1 == name)) = some v
        rw [List.find?_append]
        cases hg : p.2.find? (fun f => f.1 == name) with
        | none => rw [hg] at h; simp at h
        | some q => rw [hg] at h; simpa using h
      · rw [if_neg hp]
        exact h

theorem findFile_safe_move (sourceDir : String) (st : State) (e : Entry)
    (category c name : String) (v : Nat) (h : findFile st c name = some v) :
    findFile (safe_move sourceDir st e category).1 c name = some v := by
  cases hme : e.moveError with
  | some exc =>
      simp only [safe_move, hme]
      rw [findFile_ensureDir]
      exact h
  | none =>
      simp only [safe_move, hme]
      apply findFile_addFile
      rw [findFile_ensureDir]
      exact h

/-! ### Characterisation of `normalize_extension` -/

theorem toLower_def (c : Char) :
    Char.toLower c =
      if c.toNat ≥ 65 ∧ c.toNat ≤ 90 then Char.ofNat (c.toNat + 32) else c := rfl

theorem toLower_eq_dot_iff (c : Char) : Char.toLower c = '.' ↔ c = '.' := by
  constructor
  · intro h
    rw [toLower_def] at h
    by_cases hr : c.toNat ≥ 65 ∧ c.toNat ≤ 90
    · rw [if_pos hr] at h
      exfalso
      have hb : ∀ n, n ≤ 90 → 65 ≤ n → (Char.ofNat (n + 32)).toNat = n + 32 := by
        decide
      have h46 : (Char.ofNat (c.toNat + 32)).toNat = 46 := by rw [h]; rfl
      have := hb c.toNat hr.2 hr.1
      omega
    · rwa [if_neg hr] at h
  · intro h
    subst h
    rfl

theorem not_mem_of_rfindDot_eq_none : ∀ l : List Char, rfindDot l = none → '.' ∉ l := by
  intro l
  induction l with
  | nil => intro _; simp
  | cons c cs ih =>
      intro h
      simp only [rfindDot] at h
      cases hcs : rfindDot cs with
      | some j => rw [hcs] at h; simp at h
      | none =>
          rw [hcs] at h
          by_cases hc : c = '.'
          · rw [if_pos hc] at h; simp at h
          · simp only [List.mem_cons, not_or]
            exact ⟨fun he => hc he.symm, ih hcs⟩

theorem rfindDot_decomp : ∀ (l : List Char) (i : Nat), rfindDot l = some i →
    ∃ pre post, l = pre ++ '.' :: post ∧ pre.length = i ∧ '.' ∉ post := by
  intro l
  induction l with
  | nil => intro i h; simp [rfindDot] at h
  | cons c cs ih =>
      intro i h
      simp only [rfindDot] at h
      cases hcs : rfindDot cs with
      | some j =>
          rw [hcs] at h
          obtain rfl : j + 1 = i := Option.some.inj h
          obtain ⟨pre, post, hdec, hlen, hpost⟩ := ih j hcs
          exact ⟨c :: pre, post, by simp [hdec], by simp [hlen], hpost⟩
      | none =>
          rw [hcs] at h
          by_cases hc : c = '.'
          · rw [if_pos hc] at h
            obtain rfl : (0 : Nat) = i := Option.some.inj h
            subst hc
            exact ⟨[], cs, rfl, rfl, not_mem_of_rfindDot_eq_none cs hcs⟩
          · rw [if_neg hc] at h
            simp at h

theorem mem_of_rfindDot_eq_some {l : List Char} {i : Nat}
    (h : rfindDot l = some i) : '.' ∈ l := by
  obtain ⟨pre, post, rfl, _, _⟩ := rfindDot_decomp l i h
  simp

theorem rfindDot_map_toLower (l : List Char) :
    rfindDot (l.map Char.toLower) = rfindDot l := by
  induction l with
  | nil => rfl
  | cons c cs ih =>
      simp only [List.map_cons, rfindDot, ih]
      cases rfindDot cs with
      | some i => rfl
      | none => simp [toLower_eq_dot_iff]

theorem dropWhile_dot_map_toLower {post : List Char} (hpost : '.' ∉ post) :
    (post.map Char.toLower).dropWhile (fun c => c == '.') = post.map Char.toLower := by
  cases post with
  | nil => rfl
  | cons c cs =>
      have hc : c ≠ '.' := by
        intro hc
        exact hpost (by simp [hc])
      have hlc : ¬ ((Char.toLower c == '.') = true) := by
        simp only [beq_iff_eq]
        exact fun hh => hc ((toLower_eq_dot_iff c).1 hh)
      simp only [List.map_cons, List.dropWhile_cons]
      rw [if_neg hlc]

theorem tail_count_ne_zero {l : List Char} {pre post : List Char} {i : Nat}
    (hdec : l = pre ++ '.' :: post) (hlen : pre.length = i) (hi : i ≠ 0) :
    ¬ (l.head? = some '.' ∧ l.tail.count '.' = 0) := by
  rintro ⟨-, hc⟩
  cases pre with
  | nil => exact hi (by simpa using hlen.symm)
  | cons p0 pre2 =>
      subst hdec
      rw [List.count_eq_zero] at hc
      exact hc (by simp)

/-- Substring after the last dot, for `specExtension`. -/
def afterLastDot (l : List Char) : List Char :=
  match rfindDot l with
  | some i => l.drop (i + 1)
  | none => []

/-- The extension as the claim's words describe it: the substring after the
last dot, lowercased, with no leading separator; the empty string when the
name has no dot at all, or when it is a pure hidden file (starts with a dot
and contains no further dot).  Stated from the claim to be compared with
`normalize_extension`. -/
def specExtension (name : String) : String :=
  if name.data.count '.' = 0 then ""
  else if name.data.head? = some '.' ∧ name.data.tail.count '.' = 0 then ""
  else ⟨(afterLastDot name.data).map Char.toLower⟩

theorem suffixIdx_of_some (l : List Char) (i : Nat) (h : rfindDot l = some i) :
    suffixIdx l = if 0 < i ∧ i + 1 < l.length then some i else none := by
  unfold suffixIdx
  rw [h]

theorem pySuffix_of_rfindDot_none (name : String) (h : rfindDot name.data = none) :
    pySuffix name = "" := by
  unfold pySuffix suffixIdx
  rw [h]

theorem pySuffix_of_cond (name : String) (i : Nat) (h : rfindDot name.data = some i)
    (hc : 0 < i ∧ i + 1 < name.data.length) :
    pySuffix name = ⟨name.data.drop i⟩ := by
  unfold pySuffix
  rw [suffixIdx_of_some _ _ h, if_pos hc]

theorem pySuffix_of_not_cond (name : String) (i : Nat) (h : rfindDot name.data = some i)
    (hc : ¬ (0 < i ∧ i + 1 < name.data.length)) :
    pySuffix name = "" := by
  unfold pySuffix
  rw [suffixIdx_of_some _ _ h, if_neg hc]

theorem afterLastDot_of_some (l : List Char) (i : Nat) (h : rfindDot l = some i) :
    afterLastDot l = l.drop (i + 1) := by
  unfold afterLastDot
  rw [h]

theorem normalize_eq_specExtension (name : String) :
    normalize_extension name = specExtension name := by
  cases h : rfindDot name.data with
  | none =>
      have hcount : name.data.count '.' = 0 :=
        List.count_eq_zero.2 (not_mem_of_rfindDot_eq_none _ h)
      unfold normalize_extension specExtension
      rw [if_pos hcount, pySuffix_of_rfindDot_none name h]
      rfl
  | some i =>
      obtain ⟨pre, post, hdec, hlen, hpost⟩ := rfindDot_decomp _ _ h
      have hmem : '.' ∈ name.data := mem_of_rfindDot_eq_some h
      have hcount : ¬ name.data.count '.' = 0 := by
        rw [List.count_eq_zero]
        exact fun hn => hn hmem
      unfold normalize_extension specExtension
      rw [if_neg hcount]
      by_cases hcond : 0 < i ∧ i + 1 < name.data.length
      · have htc := tail_count_ne_zero hdec hlen (by omega)
        rw [pySuffix_of_cond name i h hcond, if_neg htc, afterLastDot_of_some _ _ h]
        have hdrop : name.data.drop i = '.' :: post := by
          rw [hdec]
          exact List.drop_left' hlen
        have hdrop1 : name.data.drop (i + 1) = post := by
          rw [hdec, show pre ++ '.' :: post = (pre ++ ['.']) ++ post by simp]
          exact List.drop_left' (by simp [hlen])
        show String.mk
            (((name.data.drop i).map Char.toLower).dropWhile (fun c => c == '.')) =
          String.mk ((name.data.drop (i + 1)).map Char.toLower)
        rw [hdrop, hdrop1]
        simp only [List.map_cons, List.dropWhile_cons]
        rw [if_pos (by simp [show Char.toLower '.' = '.' from rfl]),
          dropWhile_dot_map_toLower hpost]
      · rw [pySuffix_of_not_cond name i h hcond]
        by_cases hi : i = 0
        · subst hi
          have hpre : pre = [] := List.length_eq_zero.1 hlen
          subst hpre
          simp only [List.nil_append] at hdec
          have hhead : name.data.head? = some '.' := by rw [hdec]; rfl
          have htail0 : name.data.tail.count '.' = 0 := by
            rw [hdec]
            exact List.count_eq_zero.2 hpost
          rw [if_pos ⟨hhead, htail0⟩]
          rfl
        · have htc := tail_count_ne_zero hdec hlen hi
          rw [if_neg htc, afterLastDot_of_some _ _ h]
          have hlen2 : name.data.length = i + 1 + post.length := by
            rw [hdec]
            simp only [List.length_append, List.length_cons]
            omega
          have hpost0 : post = [] := by
            have hnl : ¬ (i + 1 < name.data.length) := fun hh =>
              hcond ⟨Nat.pos_of_ne_zero hi, hh⟩
            rw [hlen2] at hnl
            exact List.length_eq_zero.1 (by omega)
          subst hpost0
          have hdrop1 : name.data.drop (i + 1) = [] := by
            have h2 : name.data = (pre ++ ['.']) ++ [] := by
              rw [hdec]
              simp
            rw [h2]
            exact List.drop_left' (by simp [hlen])
          show ("" : String) = String.mk ((name.data.drop (i + 1)).map Char.toLower)
          rw [hdrop1]
          rfl

theorem normalize_extension_of_map_toLower_eq {s t : String}
    (h : s.data.map Char.toLower = t.data.map Char.toLower) :
    normalize_extension s = normalize_extension t := by
  have hfind : rfindDot s.data = rfindDot t.data := by
    rw [← rfindDot_map_toLower s.data, ← rfindDot_map_toLower t.data, h]
  have hlen : s.data.length = t.data.length := by
    have hl := congrArg List.length h
    simpa using hl
  cases hr : rfindDot t.data with
  | none =>
      unfold normalize_extension
      rw [pySuffix_of_rfindDot_none s (by rw [hfind, hr]),
        pySuffix_of_rfindDot_none t hr]
  | some i =>
      have hs : rfindDot s.data = some i := by rw [hfind, hr]
      by_cases hcond : 0 < i ∧ i + 1 < t.data.length
      · have hconds : 0 < i ∧ i + 1 < s.data.length := by
          rw [hlen]
          exact hcond
        unfold normalize_extension
        rw [pySuffix_of_cond s i hs hconds, pySuffix_of_cond t i hr hcond]
        show String.mk (((s.data.drop i).map Char.toLower).dropWhile (fun c => c == '.')) =
          String.mk (((t.data.drop i).map Char.toLower).dropWhile (fun c => c == '.'))
        rw [List.map_drop, h, ← List.map_drop]
      · have hconds : ¬ (0 < i ∧ i + 1 < s.data.length) := by
          rw [hlen]
          exact hcond
        unfold normalize_extension
        rw [pySuffix_of_not_cond s i hs hconds, pySuffix_of_not_cond t i hr hcond]

/-! ### Characterisation of `get_category` -/

theorem contains_eq_true_iff (l : List String) (a : String) :
    l.contains a = true ↔ a ∈ l := by
  unfold List.contains
  exact List.elem_iff

theorem get_category_of_forall_not_mem (ext : String)
    (mapping : List (String × List String)) (h : ∀ p ∈ mapping, ext ∉ p.2) :
    get_category ext mapping = "Others" := by
  unfold get_category
  by_cases he : ext = ""
  · rw [if_pos he]
  · rw [if_neg he]
    have hnone : mapping.find? (fun p => p.2.contains ext) = none := by
      rw [List.find?_eq_none]
      intro p hp hc
      exact h p hp ((contains_eq_true_iff p.2 ext).1 hc)
    rw [hnone]

theorem get_category_first_match (ext : String) (l1 : List (String × List String))
    (c : String) (exts : List String) (l2 : List (String × List String))
    (hne : ext ≠ "") (hmem : ext ∈ exts) (hnot : ∀ p ∈ l1, ext ∉ p.2) :
    get_category ext (l1 ++ (c, exts) :: l2) = c := by
  unfold get_category
  rw [if_neg hne]
  have h1 : l1.find? (fun p => p.2.contains ext) = none := by
    rw [List.find?_eq_none]
    intro p hp hc
    exact hnot p hp ((contains_eq_true_iff p.2 ext).1 hc)
  have h2 : List.find? (fun p : String × List String => p.2.contains ext)
      ((c, exts) :: l2) = some (c, exts) :=
    List.find?_cons_of_pos l2 ((contains_eq_true_iff exts ext).2 hmem)
  rw [List.find?_append, h1, Option.none_or, h2]

/-! ### Properties of the scan loop and of `main` -/

theorem processEntry_log_length (dir : String)
    (mapping : List (String × List String)) (st : State) (e : Entry) :
    (processEntry dir mapping st e).2.length = 1 := by
  unfold processEntry
  cases hpe : e.procError with
  | some exc => rfl
  | none =>
      by_cases hf : e.isFile = true
      · rw [if_pos hf]
        unfold safe_move
        cases hme : e.moveError <;> rfl
      · rw [if_neg hf]
        rfl

theorem runEntries_append (dir : String) (mapping : List (String × List String)) :
    ∀ (l1 l2 : List Entry) (st : State),
      runEntries dir mapping st (l1 ++ l2) =
        ((runEntries dir mapping (runEntries dir mapping st l1).1 l2).1,
         (runEntries dir mapping st l1).2 ++
           (runEntries dir mapping (runEntries dir mapping st l1).1 l2).2) := by
  intro l1
  induction l1 with
  | nil => intro l2 st; rfl
  | cons e es ih =>
      intro l2 st
      simp only [List.cons_append, runEntries, List.append_eq, ih, List.append_assoc]

theorem runEntries_log_length (dir : String)
    (mapping : List (String × List String)) :
    ∀ (es : List Entry) (st : State),
      (runEntries dir mapping st es).2.length = es.length := by
  intro es
  induction es with
  | nil => intro st; rfl
  | cons e rest ih =>
      intro st
      simp only [runEntries, List.length_append, List.length_cons,
        processEntry_log_length, ih]
      omega

theorem organize_folder_valid (src : Source)
    (mapping : List (String × List String)) (st : State)
    (h1 : src.pathExists = true) (h2 : src.isDir = true)
    (h3 : src.scanError = none) :
    organize_folder src mapping st =
      ((runEntries src.path mapping st src.entries).2,
       (runEntries src.path mapping st src.entries).1, none) := by
  simp only [organize_folder, h1, h2, h3]
  rfl

theorem main_exit_zero (src : Source) (st : State) (h1 : src.pathExists = true)
    (h2 : src.isDir = true) (h3 : src.scanError = none) : (main src st).1 = 0 := by
  simp only [main, organize_folder_valid src CATEGORY_MAP st h1 h2 h3]

/-! ### Remaining support lemmas -/

theorem data_infix_append (pre s post : String) :
    s.data <:+: (pre ++ s ++ post).data := by
  refine ⟨pre.data, post.data, ?_⟩
  simp [String.data_append, List.append_assoc]

theorem data_infix_append_right (pre s : String) :
    s.data <:+: (pre ++ s).data := by
  refine ⟨pre.data, [], ?_⟩
  simp [String.data_append, List.append_assoc]

theorem organize_folder_scan_fault (src : Source)
    (mapping : List (String × List String)) (st : State) (exc : String)
    (h1 : src.pathExists = true) (h2 : src.isDir = true)
    (h3 : src.scanError = some exc) :
    organize_folder src mapping st = ([], st, some (OrgError.scanFault exc)) := by
  simp only [organize_folder, h1, h2, h3]
  rfl

theorem organize_folder_not_found (src : Source)
    (mapping : List (String × List String)) (st : State)
    (h : ¬ (src.pathExists = true ∧ src.isDir = true)) :
    organize_folder src mapping st =
      ([⟨Level.error,
          "Source folder does not exist or is not a directory: " ++ src.path⟩],
       st, some (OrgError.fileNotFound ("Source folder not found: " ++ src.path))) := by
  have hb : (src.pathExists && src.isDir) = false := by
    cases hp : src.pathExists <;> cases hd : src.isDir <;> simp_all
  simp only [organize_folder, hb]
  rfl

/-! ## The claims -/

/-- C1: Safe move never overwrites — the name returned by
`make_safe_target` does not exist in the destination directory at the
moment of computation, and consequently every file already present in any
destination subfolder before a `safe_move` is still present with the same
content after it. -/
theorem safe_move_no_overwrite :
    (∀ (fs : List String) (filename : String),
      make_safe_target fs filename ∉ fs) ∧
    (∀ (sourceDir : String) (st : State) (e : Entry) (category c name : String)
       (v : Nat), findFile st c name = some v →
      findFile (safe_move sourceDir st e category).1 c name = some v) :=
  ⟨make_safe_target_not_mem, findFile_safe_move⟩

/-- C1 witness: concrete instance of the no-overwrite invariant. -/
theorem safe_move_no_overwrite_witness :
    make_safe_target ["report.pdf"] "report.pdf" ∉ ["report.pdf"] ∧
    (findFile ⟨[("Images", [("a.jpg", 5)])]⟩ "Images" "a.jpg" = some 5 ∧
     findFile (safe_move "/s" ⟨[("Images", [("a.jpg", 5)])]⟩
         ⟨"a.jpg", true, 7, none, none⟩ "Images").1 "Images" "a.jpg" = some 5) :=
  ⟨safe_move_no_overwrite.1 ["report.pdf"] "report.pdf",
   by decide,
   safe_move_no_overwrite.2 "/s" ⟨[("Images", [("a.jpg", 5)])]⟩
     ⟨"a.jpg", true, 7, none, none⟩ "Images" "Images" "a.jpg" 5 (by decide)⟩

/-- C2: the safe-target algorithm — an absent filename is returned
unchanged; a present one yields the candidate `"{stem} ({n}){extension}"`
for the least `n ≥ 1` whose candidate is absent; in particular the
`report.pdf` examples. -/
theorem make_safe_target_algorithm :
    (∀ (fs : List String) (filename : String),
      (filename ∉ fs → make_safe_target fs filename = filename) ∧
      (filename ∈ fs → ∃ n, 1 ≤ n ∧
        make_safe_target fs filename =
          candidate (pyStem filename) (pySuffix filename) n ∧
        candidate (pyStem filename) (pySuffix filename) n ∉ fs ∧
        ∀ m, 1 ≤ m → m < n →
          candidate (pyStem filename) (pySuffix filename) m ∈ fs)) ∧
    make_safe_target ["report.pdf"] "report.pdf" = "report (1).pdf" ∧
    make_safe_target ["report.pdf", "report (1).pdf"] "report.pdf" =
      "report (2).pdf" :=
  ⟨fun fs filename => ⟨make_safe_target_of_not_mem fs filename,
      make_safe_target_of_mem fs filename⟩, rfl, rfl⟩

/-- C2 witness: the unchanged case at a concrete input. -/
theorem make_safe_target_algorithm_witness :
    "x.txt" ∉ ["y.txt"] ∧ make_safe_target ["y.txt"] "x.txt" = "x.txt" :=
  ⟨by decide, (make_safe_target_algorithm.1 ["y.txt"] "x.txt").1 (by decide)⟩

/-- C3: `normalize_extension` returns exactly the extension the spec
describes (substring after the last dot, lowercased, empty for no-dot names
and pure hidden files), it is total by construction, and names differing
only in letter case normalize to the same extension and resolve to the same
category. -/
theorem normalize_extension_spec :
    (∀ name : String, normalize_extension name = specExtension name) ∧
    (∀ s t : String, s.data.map Char.toLower = t.data.map Char.toLower →
      normalize_extension s = normalize_extension t ∧
      ∀ mapping : List (String × List String),
        get_category (normalize_extension s) mapping =
          get_category (normalize_extension t) mapping) ∧
    normalize_extension "README" = "" ∧
    normalize_extension ".bashrc" = "" ∧
    normalize_extension "Photo.JPG" = "jpg" ∧
    normalize_extension "photo.jpg" = "jpg" ∧
    get_category (normalize_extension "Photo.JPG") CATEGORY_MAP = "Images" ∧
    get_category (normalize_extension "photo.jpg") CATEGORY_MAP = "Images" := by
  refine ⟨normalize_eq_specExtension, ?_, rfl, rfl, rfl, rfl, rfl, rfl⟩
  intro s t h
  have he := normalize_extension_of_map_toLower_eq h
  exact ⟨he, fun mapping => by rw [he]⟩

/-- C3 witness: the case-insensitivity conclusion at a concrete input. -/
theorem normalize_extension_spec_witness :
    "Photo.JPG".data.map Char.toLower = "photo.jpg".data.map Char.toLower ∧
    normalize_extension "Photo.JPG" = normalize_extension "photo.jpg" :=
  ⟨by decide, (normalize_extension_spec.2.1 "Photo.JPG" "photo.jpg" (by decide)).1⟩

/-- C4: `get_category` returns the first category, in the map's order,
whose extension set contains the input, and exactly "Others" for the empty
or an unmapped extension. -/
theorem get_category_spec :
    (∀ (ext : String) (mapping : List (String × List String)),
      (ext = "" → get_category ext mapping = "Others") ∧
      ((∀ p ∈ mapping, ext ∉ p.2) → get_category ext mapping = "Others") ∧
      (∀ (l1 : List (String × List String)) (c : String) (exts : List String)
         (l2 : List (String × List String)),
        mapping = l1 ++ (c, exts) :: l2 → ext ≠ "" → ext ∈ exts →
        (∀ p ∈ l1, ext ∉ p.2) → get_category ext mapping = c)) ∧
    get_category "xyz" CATEGORY_MAP = "Others" ∧
    get_category "" CATEGORY_MAP = "Others" := by
  refine ⟨?_, rfl, rfl⟩
  intro ext mapping
  refine ⟨?_, get_category_of_forall_not_mem ext mapping, ?_⟩
  · intro h
    subst h
    rfl
  · intro l1 c exts l2 hm hne hmem hnot
    subst hm
    exact get_category_first_match ext l1 c exts l2 hne hmem hnot

/-- C4 witness: the first-match conclusion at a concrete input. -/
theorem get_category_spec_witness :
    ("jpg" : String) ≠ "" ∧ ("jpg" : String) ∈ ["jpg", "png"] ∧
    get_category "jpg" ([] ++ ("Images", ["jpg", "png"]) :: [("Docs", ["pdf"])]) =
      "Images" :=
  ⟨by decide, by decide,
   (get_category_spec.1 "jpg" _).2.2 [] "Images" ["jpg", "png"] [("Docs", ["pdf"])]
     rfl (by decide) (by decide) (by intro p hp; simp at hp)⟩

/-- C5: `safe_move` always returns an optional path and never propagates an
exception (it is a total function whose `except Exception` branch is the
`moveError` case): on success it returns the destination path and emits one
INFO record containing the source and final destination paths; on any
failure it returns `none` and emits one ERROR record containing the source
path, the attempted destination directory, and the error description. -/
theorem safe_move_outcome (sourceDir : String) (st : State) (e : Entry)
    (category : String) :
    (e.moveError = none →
      ∃ target : String,
        (safe_move sourceDir st e category).2.1 =
          some (joinPath (joinPath sourceDir category) target) ∧
        (safe_move sourceDir st e category).2.2 =
          [⟨Level.info, "Moved: " ++ joinPath sourceDir e.name ++ " -> " ++
              joinPath (joinPath sourceDir category) target⟩] ∧
        ∀ r ∈ (safe_move sourceDir st e category).2.2,
          r.level = Level.info ∧
          (joinPath sourceDir e.name).data <:+: r.msg.data ∧
          (joinPath (joinPath sourceDir category) target).data <:+: r.msg.data) ∧
    (∀ exc, e.moveError = some exc →
      (safe_move sourceDir st e category).2.1 = none ∧
      (safe_move sourceDir st e category).2.2 =
        [⟨Level.error, "Failed to move " ++ joinPath sourceDir e.name ++
            " -> " ++ joinPath sourceDir category ++ ": " ++ exc⟩] ∧
      ∀ r ∈ (safe_move sourceDir st e category).2.2,
        r.level = Level.error ∧
        (joinPath sourceDir e.name).data <:+: r.msg.data ∧
        (joinPath sourceDir category).data <:+: r.msg.data ∧
        exc.data <:+: r.msg.data) := by
  constructor
  · intro hme
    refine ⟨make_safe_target (namesIn (ensureDir st category) category) e.name,
      ?_, ?_, ?_⟩
    · simp [safe_move, hme]
    · simp [safe_move, hme]
    · intro r hr
      simp only [safe_move, hme, List.mem_singleton] at hr
      subst hr
      refine ⟨rfl, ?_, ?_⟩
      · exact ⟨"Moved: ".data,
          (" -> " ++ joinPath (joinPath sourceDir category)
            (make_safe_target (namesIn (ensureDir st category) category)
              e.name)).data,
          by simp [String.data_append, List.append_assoc]⟩
      · exact ⟨("Moved: " ++ joinPath sourceDir e.name ++ " -> ").data, [],
          by simp [String.data_append, List.append_assoc]⟩
  · intro exc hme
    refine ⟨?_, ?_, ?_⟩
    · simp [safe_move, hme]
    · simp [safe_move, hme]
    · intro r hr
      simp only [safe_move, hme, List.mem_singleton] at hr
      subst hr
      refine ⟨rfl, ?_, ?_, ?_⟩
      · exact ⟨"Failed to move ".data,
          (" -> " ++ joinPath sourceDir category ++ ": " ++ exc).data,
          by simp [String.data_append, List.append_assoc]⟩
      · exact ⟨("Failed to move " ++ joinPath sourceDir e.name ++ " -> ").data,
          (": " ++ exc).data,
          by simp [String.data_append, List.append_assoc]⟩
      · exact ⟨("Failed to move " ++ joinPath sourceDir e.name ++ " -> " ++
            joinPath sourceDir category ++ ": ").data, [],
          by simp [String.data_append, List.append_assoc]⟩

/-- C5 witness: the success case at a concrete input. -/
theorem safe_move_outcome_witness :
    (⟨"a.jpg", true, 1, none, none⟩ : Entry).moveError = none ∧
    ∃ target : String,
      (safe_move "/s" ⟨[]⟩ ⟨"a.jpg", true, 1, none, none⟩ "Images").2.1 =
        some (joinPath (joinPath "/s" "Images") target) :=
  ⟨rfl, by
    obtain ⟨t, h1, -, -⟩ :=
      (safe_move_outcome "/s" ⟨[]⟩ ⟨"a.jpg", true, 1, none, none⟩ "Images").1 rfl
    exact ⟨t, h1⟩⟩

/-- C6: on a source that does not exist or is not a directory,
`organize_folder` emits an ERROR record and raises the distinguishable
`FileNotFoundError` before touching anything — the filesystem state is
returned unchanged, so no category subfolder is created and no file is
moved. -/
theorem organize_folder_invalid_source (src : Source)
    (mapping : List (String × List String)) (st : State)
    (h : ¬ (src.pathExists = true ∧ src.isDir = true)) :
    organize_folder src mapping st =
      ([⟨Level.error,
          "Source folder does not exist or is not a directory: " ++ src.path⟩],
       st, some (OrgError.fileNotFound ("Source folder not found: " ++ src.path))) ∧
    (organize_folder src mapping st).2.1 = st ∧
    (∃ m, (organize_folder src mapping st).2.2 = some (OrgError.fileNotFound m)) ∧
    (∃ r ∈ (organize_folder src mapping st).1, r.level = Level.error) := by
  have heq := organize_folder_not_found src mapping st h
  refine ⟨heq, by rw [heq], ⟨_, by rw [heq]⟩, ?_⟩
  rw [heq]
  exact ⟨_, List.mem_singleton.2 rfl, rfl⟩

/-- C6 witness: a concrete nonexistent source. -/
theorem organize_folder_invalid_source_witness :
    ¬ ((⟨"/missing", false, false, [], none⟩ : Source).pathExists = true ∧
       (⟨"/missing", false, false, [], none⟩ : Source).isDir = true) ∧
    (organize_folder ⟨"/missing", false, false, [], none⟩ CATEGORY_MAP ⟨[]⟩).2.1 =
      ⟨[]⟩ :=
  ⟨by decide,
   (organize_folder_invalid_source ⟨"/missing", false, false, [], none⟩
     CATEGORY_MAP ⟨[]⟩ (by decide)).2.1⟩

/-- C7: per-entry failure isolation — the scan of `l1 ++ l2` always runs the
whole of `l2` on the state left by `l1`, every entry contributes exactly one
log record (so a run attempts all entries regardless of individual
failures), and a run over a valid source exits with code 0 even when
individual entries carry failures. -/
theorem per_entry_isolation :
    (∀ (dir : String) (mapping : List (String × List String)) (st : State)
       (l1 l2 : List Entry),
      runEntries dir mapping st (l1 ++ l2) =
        ((runEntries dir mapping (runEntries dir mapping st l1).1 l2).1,
         (runEntries dir mapping st l1).2 ++
           (runEntries dir mapping (runEntries dir mapping st l1).1 l2).2)) ∧
    (∀ (dir : String) (mapping : List (String × List String)) (st : State)
       (es : List Entry),
      (runEntries dir mapping st es).2.length = es.length) ∧
    (∀ (src : Source) (st : State), src.pathExists = true → src.isDir = true →
      src.scanError = none → (main src st).1 = 0) :=
  ⟨fun dir mapping st l1 l2 => runEntries_append dir mapping l1 l2 st,
   fun dir mapping st es => runEntries_log_length dir mapping es st,
   main_exit_zero⟩

/-- C7 witness: a run whose only entry fails to move still exits with 0. -/
theorem per_entry_isolation_witness :
    (⟨"/s", true, true, [⟨"bad.txt", true, 1, none, some "disk full"⟩],
        none⟩ : Source).pathExists = true ∧
    (main ⟨"/s", true, true, [⟨"bad.txt", true, 1, none, some "disk full"⟩],
        none⟩ ⟨[]⟩).1 = 0 :=
  ⟨rfl, per_entry_isolation.2.2
    ⟨"/s", true, true, [⟨"bad.txt", true, 1, none, some "disk full"⟩], none⟩
    ⟨[]⟩ rfl rfl rfl⟩

/-- C8 counterexample: the exit code for an unhandled fault escaping the
per-entry guard (an `os.scandir` failure) is 2, and the exit code for an
invalid source directory is also 2 — the two non-zero exit codes are not
distinct, contrary to the claim. -/
theorem exit_code_counterexample :
    (main ⟨"/s", true, true, [], some "PermissionError: scandir"⟩ ⟨[]⟩).1 = 2 ∧
    (main ⟨"/missing", false, false, [], none⟩ ⟨[]⟩).1 = 2 ∧
    ¬ ((main ⟨"/s", true, true, [], some "PermissionError: scandir"⟩ ⟨[]⟩).1 ≠
       (main ⟨"/missing", false, false, [], none⟩ ⟨[]⟩).1) := by
  refine ⟨rfl, rfl, fun h => h rfl⟩

/-- C8 amended: an unhandled fault escaping the per-entry guard aborts the
remaining scan (no entry processed, state unchanged, no scan logs), is
logged at ERROR severity by `logger.exception`, and makes the process exit
with the non-zero code 2 — which is the same code, not a distinct one, as
the one produced for an invalid source. -/
theorem unhandled_fault_exit (src : Source) (st : State) (exc : String)
    (h1 : src.pathExists = true) (h2 : src.isDir = true)
    (h3 : src.scanError = some exc) :
    (main src st).1 = 2 ∧ (main src st).1 ≠ 0 ∧
    (organize_folder src CATEGORY_MAP st).1 = [] ∧
    (organize_folder src CATEGORY_MAP st).2.1 = st ∧
    (∃ r ∈ (main src st).2, r.level = Level.error ∧
      ("Unhandled error: " ++ exc).data <:+: r.msg.data) ∧
    (∀ (src2 : Source) (st2 : State), src2.pathExists = false →
      (main src2 st2).1 = 2) := by
  have hof := organize_folder_scan_fault src CATEGORY_MAP st exc h1 h2 h3
  have hmain : main src st =
      (2, [⟨Level.info, "Starting organization for: " ++ src.path⟩,
           ⟨Level.error, "Unhandled error: " ++ exc⟩]) := by
    simp only [main, hof]
    rfl
  refine ⟨by rw [hmain], by rw [hmain]; simp, by rw [hof], by rw [hof], ?_, ?_⟩
  · rw [hmain]
    refine ⟨⟨Level.error, "Unhandled error: " ++ exc⟩, by simp, rfl, ?_⟩
    exact ⟨[], [], by simp⟩
  · intro src2 st2 hp2
    have hof2 := organize_folder_not_found src2 CATEGORY_MAP st2
      (fun hc => by rw [hp2] at hc; exact absurd hc.1 (by decide))
    simp only [main, hof2]

/-- C8 amended witness: a concrete scan fault exits with code 2. -/
theorem unhandled_fault_exit_witness :
    (⟨"/s", true, true, [], some "boom"⟩ : Source).scanError = some "boom" ∧
    (main ⟨"/s", true, true, [], some "boom"⟩ ⟨[]⟩).1 = 2 :=
  ⟨rfl, (unhandled_fault_exit ⟨"/s", true, true, [], some "boom"⟩ ⟨[]⟩ "boom"
    rfl rfl rfl).1⟩

/-- C9 counterexample: in the spec's end-to-end scenario (`a.jpg`, `b.pdf`,
`notes`, and the subdirectory `old/`), a DEBUG skip record is passed to the
logger, and the log file does contain an INFO record for a successful move,
but the log file contains no DEBUG record at all, because `setup_logger`
fixes the logger level at INFO — contrary to the claim that the log file
contains a DEBUG skip record for each skipped subdirectory. -/
theorem skipped_dir_log_counterexample :
    (∃ r ∈ (main ⟨"/s", true, true,
        [⟨"a.jpg", true, 1, none, none⟩, ⟨"b.pdf", true, 2, none, none⟩,
         ⟨"notes", true, 3, none, none⟩, ⟨"old", false, 0, none, none⟩],
        none⟩ ⟨[]⟩).2, r.level = Level.debug) ∧
    ((⟨Level.info, "Moved: /s/a.jpg -> /s/Images/a.jpg"⟩ : LogRecord) ∈
      writtenRecords (main ⟨"/s", true, true,
        [⟨"a.jpg", true, 1, none, none⟩, ⟨"b.pdf", true, 2, none, none⟩,
         ⟨"notes", true, 3, none, none⟩, ⟨"old", false, 0, none, none⟩],
        none⟩ ⟨[]⟩).2) ∧
    ¬ (∃ r ∈ writtenRecords (main ⟨"/s", true, true,
        [⟨"a.jpg", true, 1, none, none⟩, ⟨"b.pdf", true, 2, none, none⟩,
         ⟨"notes", true, 3, none, none⟩, ⟨"old", false, 0, none, none⟩],
        none⟩ ⟨[]⟩).2, r.level = Level.debug) := by
  refine ⟨?_, ?_, ?_⟩
  · decide
  · decide
  · decide

/-- C9 amended: every directory child is skipped — the per-entry step
leaves the filesystem state unchanged (so the directory is never moved and
never appears inside any category subfolder) and emits exactly one
DEBUG-level skip record to the logger — but that record is filtered by
the logger's INFO threshold, so it never reaches the log file. -/
theorem directories_skipped_filtered (dir : String)
    (mapping : List (String × List String)) (st : State) (e : Entry)
    (hf : e.isFile = false) (hp : e.procError = none) :
    processEntry dir mapping st e =
      (st, [⟨Level.debug, "Skipped directory: " ++ joinPath dir e.name⟩]) ∧
    writtenRecords
      [⟨Level.debug, "Skipped directory: " ++ joinPath dir e.name⟩] = [] := by
  constructor
  · unfold processEntry
    rw [hp, hf]
    rfl
  · rfl

/-- C9 amended witness: a concrete skipped directory. -/
theorem directories_skipped_filtered_witness :
    (⟨"old", false, 0, none, none⟩ : Entry).isFile = false ∧
    processEntry "/s" CATEGORY_MAP ⟨[]⟩ ⟨"old", false, 0, none, none⟩ =
      (⟨[]⟩, [⟨Level.debug, "Skipped directory: " ++ joinPath "/s" "old"⟩]) :=
  ⟨rfl, (directories_skipped_filtered "/s" CATEGORY_MAP ⟨[]⟩
    ⟨"old", false, 0, none, none⟩ rfl rfl).1⟩

/-- C10: termination of safe naming — for every finite destination listing
there is a free candidate with index at least 1, and the probe loop, run
with fuel `fs.length + 1`, returns the candidate of the least such index,
so the unbounded loop of the source returns after finitely many
iterations. -/
theorem make_safe_target_terminates (fs : List String) (stem suffix : String) :
    (∃ n, 1 ≤ n ∧ candidate stem suffix n ∉ fs) ∧
    (∃ n, 1 ≤ n ∧
      probe fs stem suffix 1 (fs.length + 1) = some (candidate stem suffix n) ∧
      candidate stem suffix n ∉ fs ∧
      ∀ m, 1 ≤ m → m < n → candidate stem suffix m ∈ fs) := by
  cases hp : probe fs stem suffix 1 (fs.length + 1) with
  | none => exact absurd hp (probe_ne_none fs stem suffix 1)
  | some s =>
      obtain ⟨n, hn1, hs, hn3, hn4⟩ := probe_eq_some fs stem suffix _ _ _ hp
      subst hs
      exact ⟨⟨n, hn1, hn3⟩, ⟨n, hn1, rfl, hn3, hn4⟩⟩

/-- C10 witness: the existence conclusion at a concrete input. -/
theorem make_safe_target_terminates_witness :
    ∃ n, 1 ≤ n ∧ candidate "report" ".pdf" n ∉ ["report.pdf"] :=
  (make_safe_target_terminates ["report.pdf"] "report" ".pdf").1

end FileOrganizer
